import Mathlib

/-!
Verification of the lithology classification and stratigraphic-unit
aggregation pipeline (`src/core/analyzer.py` of the Earthworm borehole
logging application).

The Python code operates on pandas DataFrames of IEEE floats; the
embedding uses `ℚ` for all measurement values (exact arithmetic) and
plain Lean lists/structures for frames and records.  Python's
`sorted`/`sort_values` are modelled by the stable `List.insertionSort`.
-/

namespace Earthworm

/-- Sentinel marking "don't care" rule bounds (`INVALID_DATA_VALUE = -999.25`
in `config.py`). -/
def INVALID_DATA_VALUE : ℚ := -999.25

/-- Default threshold for merging thin units (`DEFAULT_MERGE_THRESHOLD = 0.05`). -/
def DEFAULT_MERGE_THRESHOLD : ℚ := 0.05

/-- One lithology classification rule (a rule dictionary in the Python code).
The numeric bounds and the display metadata read by the pipeline are modelled
as total fields. -/
structure Rule where
  name : String := ""
  code : String
  gamma_min : ℚ := 0
  gamma_max : ℚ := 0
  density_min : ℚ := 0
  density_max : ℚ := 0
  qualifier : String := ""
  shade : String := ""
  hue : String := ""
  colour : String := ""
  weathering : String := ""
  strength : String := ""
  background_color : String := "#FFFFFF"
  svg_path : Option String := none
deriving DecidableEq, Repr

/-- One entry of `RESEARCHED_LITHOLOGY_DEFAULTS` (all entries in `config.py`
carry all four bounds). -/
structure ResearchedDefault where
  gamma_min : ℚ
  gamma_max : ℚ
  density_min : ℚ
  density_max : ℚ
deriving DecidableEq, Repr

/-- The `RESEARCHED_LITHOLOGY_DEFAULTS` table of `config.py`. -/
def RESEARCHED_LITHOLOGY_DEFAULTS : String → Option ResearchedDefault
  | "CO" => some ⟨0, 20, 1.2, 1.8⟩
  | "SS" => some ⟨20, 60, 2.4, 2.7⟩
  | "ST" => some ⟨50, 100, 2.2, 2.6⟩
  | "SH" => some ⟨80, 150, 2.5, 2.8⟩
  | "XM" => some ⟨60, 120, 2.0, 2.3⟩
  | "ZM" => some ⟨30, 80, 1.7, 2.1⟩
  | _ => none

/-- Effective per-rule channel parameters after the researched-defaults
substitution step of `classify_rows`. -/
structure EffRule where
  gmin : ℚ
  gmax : ℚ
  gign : Bool
  dmin : ℚ
  dmax : ℚ
  dign : Bool
deriving DecidableEq, Repr

/-- Lines 58-90 of `classify_rows`: compute the wildcard flags and substitute
researched default ranges when enabled and the rule's own range is
wildcard-or-exactly-zero. -/
def effectiveParams (use_researched_defaults : Bool) (r : Rule) : EffRule :=
  let gign : Bool := decide (r.gamma_min = INVALID_DATA_VALUE ∧ r.gamma_max = INVALID_DATA_VALUE)
  let dign : Bool := decide (r.density_min = INVALID_DATA_VALUE ∧ r.density_max = INVALID_DATA_VALUE)
  let base : EffRule := ⟨r.gamma_min, r.gamma_max, gign, r.density_min, r.density_max, dign⟩
  match RESEARCHED_LITHOLOGY_DEFAULTS r.code with
  | none => base
  | some d =>
    if use_researched_defaults then
      let gamma_missing : Bool := gign || decide (r.gamma_min = 0 ∧ r.gamma_max = 0)
      let density_missing : Bool := dign || decide (r.density_min = 0 ∧ r.density_max = 0)
      let e1 : EffRule := if gamma_missing then { base with gmin := d.gamma_min, gmax := d.gamma_max, gign := false } else base
      if density_missing then { e1 with dmin := d.density_min, dmax := d.density_max, dign := false } else e1
    else base

/-- Lines 96-100 of `classify_rows`: a sample matches a rule iff, on each
channel, the channel is ignored or the value lies within the (effective)
closed range. -/
def ruleMatches (use_researched_defaults : Bool) (r : Rule) (g d : ℚ) : Bool :=
  let e := effectiveParams use_researched_defaults r
  (e.gign || (decide (e.gmin ≤ g) && decide (g ≤ e.gmax))) &&
  (e.dign || (decide (e.dmin ≤ d) && decide (d ≤ e.dmax)))

/-- One row of the preprocessed log DataFrame: the values of the four
standardized measurement channels. -/
structure Row where
  gamma : ℚ := 0
  density : ℚ := 0
  short_space_density : ℚ := 0
  long_space_density : ℚ := 0
deriving DecidableEq, Repr

/-- The log DataFrame: its column-name set and its rows. -/
structure LogFrame where
  columns : List String
  rows : List Row
deriving DecidableEq, Repr

/-- The `mnemonic_map` argument: optional original mnemonics for the density
channels (absent key modelled as `none`). -/
structure MnemonicMap where
  density : Option String := none
  short_space_density : Option String := none
  long_space_density : Option String := none
deriving DecidableEq, Repr

/-- Which standardized density column was selected. -/
inductive DensityChannel
  | density
  | shortSpace
  | longSpace
deriving DecidableEq, Repr

/-- Whether a `mnemonic_map` entry is present and its value is one of the
DataFrame's columns (`'density' in mnemonic_map and mnemonic_map['density']
in classified_df.columns`). -/
def keyResolved (o : Option String) (cols : List String) : Bool :=
  match o with
  | none => false
  | some s => decide (s ∈ cols)

/-- Lines 36-43 of `classify_rows` (same in `classify_rows_simple`): pick the
density column, prioritizing `density`, then `short_space_density`, then
`long_space_density`. -/
def resolveDensityChannel (m : MnemonicMap) (cols : List String) : Option DensityChannel :=
  if keyResolved m.density cols then some .density
  else if keyResolved m.short_space_density cols then some .shortSpace
  else if keyResolved m.long_space_density cols then some .longSpace
  else none

/-- Read the selected standardized density value from a row. -/
def densityValue : DensityChannel → Row → ℚ
  | .density, r => r.density
  | .shortSpace, r => r.short_space_density
  | .longSpace, r => r.long_space_density

/-- Result of a classification call: the `LITHOLOGY_CODE` column (one code per
row) plus whether the missing-channel warning was emitted. -/
structure ClassifyResult where
  codes : List String
  warned : Bool
deriving DecidableEq, Repr

/-- One iteration of the rule loop of `classify_rows` (lines 53-103): skip the
`NL` rule, otherwise assign the rule's code to every sample still at `NL`
whose gamma and density both satisfy the effective range conditions. -/
def stepRule (use_researched_defaults : Bool) (r : Rule) (samples : List (ℚ × ℚ))
    (codes : List String) : List String :=
  if r.code = "NL" then codes
  else List.zipWith
    (fun (s : ℚ × ℚ) (c : String) =>
      if c = "NL" ∧ ruleMatches use_researched_defaults r s.1 s.2 then r.code else c)
    samples codes

/-- The full standard-mode rule loop: fold `stepRule` over the ordered rule
list, starting from the all-`NL` column. -/
def classifyCore (use_researched_defaults : Bool) (rules : List Rule)
    (samples : List (ℚ × ℚ)) : List String :=
  rules.foldl (fun codes r => stepRule use_researched_defaults r samples codes)
    (samples.map fun _ => "NL")

/-- Squared normalized distance of `_get_nearest_lithology`.  The Python code
compares Euclidean distances; comparing their squares is equivalent since all
distances are nonnegative, and keeps the embedding inside `ℚ`. -/
def nearestSqDist (d : ResearchedDefault) (g dv : ℚ) : ℚ :=
  let gamma_center := (d.gamma_min + d.gamma_max) / 2
  let density_center := (d.density_min + d.density_max) / 2
  let gamma_range := d.gamma_max - d.gamma_min
  let density_range := d.density_max - d.density_min
  (|g - gamma_center| / gamma_range) ^ 2 + (|dv - density_center| / density_range) ^ 2

/-- Iteration order of the `RESEARCHED_LITHOLOGY_DEFAULTS` dict (Python dict
insertion order). -/
def researchedCodes : List String := ["CO", "SS", "ST", "SH", "XM", "ZM"]

/-- The scan loop of `_get_nearest_lithology`: track the strictly smallest
(squared) distance over codes whose ranges are positive. -/
def nearestScan (g dv : ℚ) : List String → Option (String × ℚ) → Option (String × ℚ)
  | [], best => best
  | c :: cs, best =>
    match RESEARCHED_LITHOLOGY_DEFAULTS c with
    | none => nearestScan g dv cs best
    | some d =>
      if 0 < d.gamma_max - d.gamma_min ∧ 0 < d.density_max - d.density_min then
        let sq := nearestSqDist d g dv
        match best with
        | none => nearestScan g dv cs (some (c, sq))
        | some (b, m) => if sq < m then nearestScan g dv cs (some (c, sq)) else nearestScan g dv cs (some (b, m))
      else nearestScan g dv cs best

/-- Model of `_get_nearest_lithology`: best match accepted only when its distance is at
most `2.0`, i.e. its squared distance at most `4`. -/
def get_nearest_lithology (g dv : ℚ) : Option String :=
  match nearestScan g dv researchedCodes none with
  | none => none
  | some (b, m) => if m ≤ 4 then some b else none

/-- Model of `_apply_extreme_value_rules` for one row: the fixed-priority extreme value
heuristics. -/
def extremeValueCode (g dv : ℚ) : Option String :=
  if dv < 1 then some "CO"
  else if 3.5 < dv then some "IG"
  else if 200 < g then some "SH"
  else if g < 10 ∧ 2 ≤ dv ∧ dv ≤ 3 then some (if dv < 2.7 then "SS" else "LS")
  else none

/-- Model of `_classify_fallbacks` for one row: a still-`NL` row gets the nearest
researched lithology, then the extreme value rules; otherwise it stays `NL`. -/
def fallbackCode (g dv : ℚ) : String :=
  match get_nearest_lithology g dv with
  | some c => c
  | none =>
    match extremeValueCode g dv with
    | some c => c
    | none => "NL"

/-- Model of `_classify_fallbacks`: reclassify all rows still at `NL`. -/
def classifyFallbacks (samples : List (ℚ × ℚ)) (codes : List String) : List String :=
  List.zipWith (fun (s : ℚ × ℚ) (c : String) => if c = "NL" then fallbackCode s.1 s.2 else c)
    samples codes

/-- Model of `Analyzer.classify_rows`: standard-mode classification.  When the gamma
column or every density channel cannot be resolved, the frame is returned with
the all-`NL` code column and a warning (the early returns at lines 45-51). -/
def classify_rows (df : LogFrame) (rules : List Rule) (m : MnemonicMap)
    (use_researched_defaults use_fallback_classification : Bool) : ClassifyResult :=
  if "gamma" ∉ df.columns then ⟨df.rows.map fun _ => "NL", true⟩
  else
    match resolveDensityChannel m df.columns with
    | none => ⟨df.rows.map fun _ => "NL", true⟩
    | some ch =>
      let samples := df.rows.map fun r => (r.gamma, densityValue ch r)
      let codes := classifyCore use_researched_defaults rules samples
      if use_fallback_classification then ⟨classifyFallbacks samples codes, false⟩
      else ⟨codes, false⟩

/-- Pass 1 of `classify_rows_simple` for one rule (lines 279-303): skip `NL`
and wildcard-density rules; assign the code to still-`NL` samples whose
density is in range. -/
def simpleDensityStep (r : Rule) (samples : List (ℚ × ℚ)) (codes : List String) : List String :=
  if r.code = "NL" then codes
  else if r.density_min = INVALID_DATA_VALUE ∧ r.density_max = INVALID_DATA_VALUE then codes
  else List.zipWith
    (fun (s : ℚ × ℚ) (c : String) =>
      if c = "NL" ∧ r.density_min ≤ s.2 ∧ s.2 ≤ r.density_max then r.code else c)
    samples codes

/-- Pass 2 of `classify_rows_simple` for one rule (lines 306-327): skip `NL`
and wildcard-gamma rules; assign the code to every sample whose gamma is in
range, overwriting any prior code. -/
def simpleGammaStep (r : Rule) (samples : List (ℚ × ℚ)) (codes : List String) : List String :=
  if r.code = "NL" then codes
  else if r.gamma_min = INVALID_DATA_VALUE ∧ r.gamma_max = INVALID_DATA_VALUE then codes
  else List.zipWith
    (fun (s : ℚ × ℚ) (c : String) =>
      if r.gamma_min ≤ s.1 ∧ s.1 ≤ r.gamma_max then r.code else c)
    samples codes

/-- Model of `Analyzer.classify_rows_simple`: density-only first pass, then the
overwriting gamma-only second pass. -/
def classify_rows_simple (df : LogFrame) (rules : List Rule) (m : MnemonicMap) : ClassifyResult :=
  if "gamma" ∉ df.columns then ⟨df.rows.map fun _ => "NL", true⟩
  else
    match resolveDensityChannel m df.columns with
    | none => ⟨df.rows.map fun _ => "NL", true⟩
    | some ch =>
      let samples := df.rows.map fun r => (r.gamma, densityValue ch r)
      let pass1 := rules.foldl (fun codes r => simpleDensityStep r samples codes)
        (samples.map fun _ => "NL")
      let pass2 := rules.foldl (fun codes r => simpleGammaStep r samples codes) pass1
      ⟨pass2, false⟩

/-- Code of the first non-`NL` rule matching the sample in standard mode, or
`"NL"` when no rule matches: the specified first-match-wins semantics. -/
def firstMatchCode (use_researched_defaults : Bool) (rules : List Rule) (g d : ℚ) : String :=
  match rules with
  | [] => "NL"
  | r :: rs =>
    if r.code ≠ "NL" ∧ ruleMatches use_researched_defaults r g d then r.code
    else firstMatchCode use_researched_defaults rs g d

/-- Code of the first non-`NL`, non-wildcard-density rule whose density range
contains `d`, or `"NL"`: the pass-1 semantics of simple mode. -/
def firstDensityMatchCode (rules : List Rule) (d : ℚ) : String :=
  match rules with
  | [] => "NL"
  | r :: rs =>
    if r.code ≠ "NL" ∧ ¬(r.density_min = INVALID_DATA_VALUE ∧ r.density_max = INVALID_DATA_VALUE)
        ∧ r.density_min ≤ d ∧ d ≤ r.density_max then r.code
    else firstDensityMatchCode rs d

/-- Code of the last non-`NL`, non-wildcard-gamma rule whose gamma range
contains `g`, if any: the pass-2 semantics of simple mode. -/
def lastGammaMatchCode (rules : List Rule) (g : ℚ) : Option String :=
  match rules with
  | [] => none
  | r :: rs =>
    match lastGammaMatchCode rs g with
    | some c => some c
    | none =>
      if r.code ≠ "NL" ∧ ¬(r.gamma_min = INVALID_DATA_VALUE ∧ r.gamma_max = INVALID_DATA_VALUE)
          ∧ r.gamma_min ≤ g ∧ g ≤ r.gamma_max then some r.code
      else none

/-- One lithological-unit record, with the fields produced by
`_group_standard_units` / `apply_interbedding_candidates`.
`record_sequence` is the empty string in grouping output and an integer in
interbedding output; it is modelled as `Option ℕ` (`none` for the empty
string). -/
structure LithUnit where
  from_depth : ℚ
  to_depth : ℚ
  thickness : ℚ
  lithology_code : String
  lithology_qualifier : String := ""
  shade : String := ""
  hue : String := ""
  colour : String := ""
  weathering : String := ""
  estimated_strength : String := ""
  background_color : String := "#FFFFFF"
  svg_path : Option String := none
  record_sequence : Option ℕ := none
  inter_relationship : String := ""
  percentage : ℚ := 0
deriving DecidableEq, Repr

instance : Inhabited LithUnit := ⟨{ from_depth := 0, to_depth := 0, thickness := 0, lithology_code := "" }⟩

/-- One row of the classified DataFrame handed to the grouper: its `DEPT`
depth and its `LITHOLOGY_CODE`. -/
structure CRow where
  dept : ℚ
  code : String
deriving DecidableEq, Repr

/-- The classified DataFrame: its column-name set and its rows. -/
structure ClassifiedFrame where
  columns : List String
  rows : List CRow
deriving DecidableEq, Repr

/-- The fixed column list of the units DataFrame produced by the grouper and
by `apply_interbedding_candidates`. -/
def unitColumns : List String :=
  ["from_depth", "to_depth", "thickness", "LITHOLOGY_CODE",
   "lithology_qualifier", "shade", "hue", "colour",
   "weathering", "estimated_strength", "background_color", "svg_path",
   "record_sequence", "inter_relationship", "percentage"]

/-- The units DataFrame: its column-name set and its unit rows. -/
structure UnitFrame where
  columns : List String
  rows : List LithUnit
deriving DecidableEq, Repr

/-- Model of the dict comprehension building the rules map: a dict
comprehension in which a later rule with the same code overwrites an earlier
one, so lookup finds the last rule with the given code. -/
def rulesMapLookup (rules : List Rule) (code : String) : Option Rule :=
  rules.reverse.find? (fun r => r.code = code)

/-- Model of the rules-map lookup with per-field defaults:
a fresh unit or interbedded record's metadata copied from the rule with the
given code, or the empty defaults when no rule carries the code. -/
def metadataOf (rules : List Rule) (code : String) : Rule :=
  match rulesMapLookup rules code with
  | some r => r
  | none => { code := code, background_color := "#FFFFFF", svg_path := none }

/-- Start a new unit from one classified row (`_group_standard_units`,
lines 674-691). -/
def newUnit (rules : List Rule) (row : CRow) : LithUnit :=
  let r := metadataOf rules row.code
  { from_depth := row.dept
    to_depth := row.dept
    thickness := 0
    lithology_code := row.code
    lithology_qualifier := r.qualifier
    shade := r.shade
    hue := r.hue
    colour := r.colour
    weathering := r.weathering
    estimated_strength := r.strength
    background_color := r.background_color
    svg_path := r.svg_path
    record_sequence := none
    inter_relationship := ""
    percentage := 0 }

/-- The row walk of `_group_standard_units`: extend the current unit while the
code repeats, close it at the next row's depth on a code change.  The source's
final `current_unit['to_depth'] = sorted_df.iloc[-1][DEPTH_COLUMN]` is the
identity here because `to_depth` always holds the depth of the last row
consumed. -/
def groupGo (rules : List Rule) (cur : LithUnit) : List CRow → List LithUnit
  | [] => [cur]
  | row :: rest =>
    if row.code = cur.lithology_code then
      groupGo rules { cur with to_depth := row.dept } rest
    else
      { cur with to_depth := row.dept } :: groupGo rules (newUnit rules row) rest

/-- Ordering of classified rows by depth (`sort_values(by=DEPTH_COLUMN)`,
modelled as a stable sort). -/
def crowLe (a b : CRow) : Prop := a.dept ≤ b.dept

instance : DecidableRel crowLe := fun a b => inferInstanceAs (Decidable (a.dept ≤ b.dept))

/-- Model of `_group_standard_units` on already-sorted rows, including the final
thickness computation `to_depth - from_depth` and the fixed column layout
(the empty input yields the empty but correctly-typed frame). -/
def group_standard_units (rows : List CRow) (rules : List Rule) : UnitFrame :=
  match rows with
  | [] => ⟨unitColumns, []⟩
  | row :: rest =>
    let units := groupGo rules (newUnit rules row) rest
    ⟨unitColumns, units.map fun u => { u with thickness := u.to_depth - u.from_depth }⟩

/-- Model of `Analyzer.group_into_units`: raises `ValueError` (modelled as
`Except.error`) when the lithology-code or depth column is absent; otherwise
sorts by depth and groups. -/
def group_into_units (df : ClassifiedFrame) (rules : List Rule) : Except String UnitFrame :=
  if "LITHOLOGY_CODE" ∉ df.columns then
    .error "DataFrame must contain a LITHOLOGY_CODE column."
  else if "DEPT" ∉ df.columns then
    .error "Depth column DEPT not found in DataFrame."
  else
    .ok (group_standard_units (df.rows.insertionSort crowLe) rules)

/-- Python's `round(x, 2)`: rounding to two decimal places.  (Mathlib's
`round` rounds half up whereas Python rounds half to even; the two agree off
exact half-way points.) -/
def round2 (q : ℚ) : ℚ := (round (q * 100) : ℤ) / 100

/-- One retained lithology component of an interbedding candidate. -/
structure LithComp where
  code : String
  thickness : ℚ
  percentage : ℚ
  sequence : ℕ
deriving DecidableEq, Repr

/-- An interbedding candidate dictionary as built by
`_find_interbedding_candidate`. -/
structure Candidate where
  from_depth : ℚ
  to_depth : ℚ
  original_sequence : List LithUnit
  lithologies : List LithComp
  average_layer_thickness : ℚ
  interrelationship_code : String
  total_thickness : ℚ
deriving DecidableEq, Repr

/-- The loop body of `_extract_alternating_sequence`: stop on a unit thicker
than the threshold, stop when the code repeats, and stop after
`max_sequence_length` additions. -/
def extractGo (thick_unit_threshold : ℚ) (max_sequence_length : ℕ)
    (current_code : Option String) (units_added : ℕ) : List LithUnit → List LithUnit
  | [] => []
  | u :: rest =>
    if thick_unit_threshold < u.thickness then []
    else if some u.lithology_code ≠ current_code then
      u :: (if max_sequence_length ≤ units_added + 1 then []
            else extractGo thick_unit_threshold max_sequence_length
              (some u.lithology_code) (units_added + 1) rest)
    else []

/-- Model of `_extract_alternating_sequence`: the loop ranges over
`range(start_idx, min(start_idx + max_sequence_length, len(units_df)))`,
i.e. over at most `max_sequence_length` units starting at `start_idx`. -/
def extract_alternating_sequence (units : List LithUnit) (start_idx : ℕ)
    (max_sequence_length : ℕ) (thick_unit_threshold : ℚ) : List LithUnit :=
  extractGo thick_unit_threshold max_sequence_length none 0
    ((units.drop start_idx).take max_sequence_length)

/-- Add one unit's thickness into the per-code accumulation dict, preserving
Python dict insertion order. -/
def bump : List (String × ℚ) → String → ℚ → List (String × ℚ)
  | [], c, t => [(c, t)]
  | (c', t') :: rest, c, t =>
    if c' = c then (c', t' + t) :: rest else (c', t') :: bump rest c t

/-- Model of `lithology_thicknesses`: total thickness per lithology code, in encounter
order (lines 471-474). -/
def lithologyThicknesses (seq : List LithUnit) : List (String × ℚ) :=
  seq.foldl (fun acc u => bump acc u.lithology_code u.thickness) []

/-- Descending-thickness ordering used by `sorted(..., key=thickness,
reverse=True)`; the stable insertion sort keeps encounter order on ties, as
Python's stable sort does. -/
def thickGe (a b : String × ℚ) : Prop := b.2 ≤ a.2

instance : DecidableRel thickGe := fun a b => inferInstanceAs (Decidable (b.2 ≤ a.2))

/-- Model of `sorted_lithologies`: the grouped components ranked by thickness
descending, ties kept in encounter order. -/
def sortedLithologies (seq : List LithUnit) : List (String × ℚ) :=
  (lithologyThicknesses seq).insertionSort thickGe

/-- Lines 483-498: enumerate the ranked components from sequence number 1,
skip a non-dominant component whose exact share is below 5%, and store the
share rounded to two decimals. -/
def buildComponents (sorted : List (String × ℚ)) (total_thickness : ℚ) : List LithComp :=
  sorted.enum.filterMap fun p =>
    let seq_num := p.1 + 1
    let percentage := p.2.2 / total_thickness * 100
    if 1 < seq_num ∧ percentage < 5 then none
    else some ⟨p.2.1, p.2.2, round2 percentage, seq_num⟩

/-- The thicknesses of the components dropped by the `<5%`-and-non-dominant
filter of lines 489-491 (the complement of `buildComponents`). -/
def droppedThicknesses (sorted : List (String × ℚ)) (total_thickness : ℚ) : List ℚ :=
  (sorted.enum.filter fun p => decide (1 < p.1 + 1 ∧ p.2.2 / total_thickness * 100 < 5)).map
    fun p => p.2.2

/-- The interrelationship code derivation of lines 459-466. -/
def interCodeOf (avg_layer_thickness : ℚ) : String :=
  if avg_layer_thickness < 0.02 then "IL"
  else if avg_layer_thickness < 0.06 then "UB"
  else if avg_layer_thickness < 0.2 then "TB"
  else "CB"

/-- Model of `Analyzer._find_interbedding_candidate`: extract the alternating run and
accept it only when it has at least 3 units, mean per-unit thickness below
0.2 m, and at least 2 components surviving the dominance filter.  (Rational
division by zero is 0 in Lean; the Python float division raises only in the
degenerate case of a run of total thickness exactly zero.) -/
def find_interbedding_candidate (units : List LithUnit) (start_idx : ℕ)
    (max_sequence_length : ℕ) (thick_unit_threshold : ℚ) : Option Candidate :=
  if units.length ≤ start_idx then none
  else
    let sequence := extract_alternating_sequence units start_idx max_sequence_length thick_unit_threshold
    if sequence.length < 3 then none
    else
      let total_thickness := (sequence.map LithUnit.thickness).sum
      let avg_layer_thickness := total_thickness / sequence.length
      if 0.2 ≤ avg_layer_thickness then none
      else
        let inter_code := interCodeOf avg_layer_thickness
        let lithologies := buildComponents (sortedLithologies sequence) total_thickness
        if lithologies.length < 2 then none
        else some
          { from_depth := (sequence.headI).from_depth
            to_depth := (sequence.getLastD default).to_depth
            original_sequence := sequence
            lithologies := lithologies
            average_layer_thickness := avg_layer_thickness
            interrelationship_code := inter_code
            total_thickness := total_thickness }

/-- The scan loop of `find_interbedding_candidates`: advance past the
consumed units on an accepted candidate, else advance by one; the fuel is the
source's defensive `total_iterations < 1000` cap. -/
def findCandidatesLoop (units : List LithUnit) (max_sequence_length : ℕ)
    (thick_unit_threshold : ℚ) : ℕ → ℕ → List Candidate
  | 0, _ => []
  | fuel + 1, i =>
    if i < units.length then
      match find_interbedding_candidate units i max_sequence_length thick_unit_threshold with
      | some c => c :: findCandidatesLoop units max_sequence_length thick_unit_threshold fuel
          (i + c.original_sequence.length)
      | none => findCandidatesLoop units max_sequence_length thick_unit_threshold fuel (i + 1)
    else []

/-- Model of `Analyzer.find_interbedding_candidates`. -/
def find_interbedding_candidates (units : List LithUnit) (max_sequence_length : ℕ)
    (thick_unit_threshold : ℚ) : List Candidate :=
  if units.length ≤ 1 then []
  else findCandidatesLoop units max_sequence_length thick_unit_threshold 1000 0

/-- Lines 616-636: one synthesized interbedded unit per retained component.
Every component — dominant or subordinate — receives
`thickness = to_depth - from_depth` (the source comment reads "Full section
thickness"); the interrelationship code is set only on the sequence-1
record. -/
def synthUnits (rules : List Rule) (c : Candidate) : List LithUnit :=
  c.lithologies.map fun l =>
    let r := metadataOf rules l.code
    { from_depth := c.from_depth
      to_depth := c.to_depth
      thickness := c.to_depth - c.from_depth
      lithology_code := l.code
      lithology_qualifier := r.qualifier
      shade := r.shade
      hue := r.hue
      colour := r.colour
      weathering := r.weathering
      estimated_strength := r.strength
      background_color := r.background_color
      svg_path := r.svg_path
      record_sequence := some l.sequence
      inter_relationship := if l.sequence = 1 then c.interrelationship_code else ""
      percentage := l.percentage }

/-- Selection of the candidates to apply, by ascending index (indices are
looked up with `get?`, which agrees with the Python indexing for in-range
indices). -/
def selectedCandidates (candidates : List Candidate) (selected_indices : List ℕ) : List Candidate :=
  (selected_indices.insertionSort (· ≤ ·)).filterMap fun i => candidates.get? i

/-- The cursor walk of `apply_interbedding_candidates`: copy the units before
each candidate's span, emit its synthesized units, drop the units consumed by
its span, and append the remainder. -/
def applyLoop (rules : List Rule) : List Candidate → List LithUnit → List LithUnit
  | [], rem => rem
  | c :: cs, rem =>
    rem.takeWhile (fun u => u.from_depth < c.from_depth)
      ++ synthUnits rules c
      ++ applyLoop rules cs
        ((rem.dropWhile fun u => u.from_depth < c.from_depth).dropWhile
          fun u => u.to_depth ≤ c.to_depth)

/-- Model of `Analyzer.apply_interbedding_candidates`. -/
def apply_interbedding_candidates (units : List LithUnit) (candidates : List Candidate)
    (selected_indices : List ℕ) (rules : List Rule) : List LithUnit :=
  if selected_indices = [] then units
  else applyLoop rules (selectedCandidates candidates selected_indices) units

/-- Ordering of units by `from_depth` (`sort_values('from_depth')`, modelled
as a stable sort). -/
def unitLe (a b : LithUnit) : Prop := a.from_depth ≤ b.from_depth

instance : DecidableRel unitLe := fun a b => inferInstanceAs (Decidable (a.from_depth ≤ b.from_depth))

instance : IsTotal LithUnit unitLe := ⟨fun a b => le_total a.from_depth b.from_depth⟩

instance : IsTrans LithUnit unitLe := ⟨fun _ _ _ h h' => le_trans h h'⟩

/-- The inner while loop of `merge_thin_units` (lines 1004-1020): while the
current unit is thinner than the threshold and the next unit has the same
lithology code and qualifier, extend the current unit over the next and
recompute its thickness. -/
def absorb (threshold : ℚ) (cur : LithUnit) : List LithUnit → LithUnit × List LithUnit
  | [] => (cur, [])
  | v :: vs =>
    if cur.thickness < threshold then
      if cur.lithology_code = v.lithology_code ∧ cur.lithology_qualifier = v.lithology_qualifier then
        absorb threshold
          { cur with to_depth := v.to_depth, thickness := v.to_depth - cur.from_depth } vs
      else (cur, v :: vs)
    else (cur, v :: vs)

theorem absorb_len (threshold : ℚ) :
    ∀ (l : List LithUnit) (cur : LithUnit), (absorb threshold cur l).2.length ≤ l.length := by
  intro l
  induction l with
  | nil => intro cur; simp [absorb]
  | cons v vs ih =>
    intro cur
    by_cases h1 : cur.thickness < threshold
    · by_cases h2 : cur.lithology_code = v.lithology_code ∧ cur.lithology_qualifier = v.lithology_qualifier
      · simp only [absorb, if_pos h1, if_pos h2]
        exact le_trans (ih _) (Nat.le_succ _)
      · simp [absorb, if_pos h1, if_neg h2]
    · simp [absorb, if_neg h1]

/-- The outer while loop of `merge_thin_units`: emit each (possibly extended)
unit and continue after the units it consumed. -/
def mergePass (threshold : ℚ) : List LithUnit → List LithUnit
  | [] => []
  | u :: rest =>
    (absorb threshold u rest).1 :: mergePass threshold (absorb threshold u rest).2
termination_by l => l.length
decreasing_by
  simp only [List.length_cons]
  exact Nat.lt_succ_of_le (absorb_len threshold rest u)

/-- Model of `Analyzer.merge_thin_units`: identity on inputs of length at most one,
otherwise the left-to-right merge pass over the depth-sorted units. -/
def merge_thin_units (units : List LithUnit) (threshold : ℚ) : List LithUnit :=
  if units.length ≤ 1 then units
  else mergePass threshold (units.insertionSort unitLe)

/-- Two adjacent units that the merge pass will not merge: the left one is not
thin, or the pair differs in lithology code or qualifier. -/
def MergedOK (threshold : ℚ) (a b : LithUnit) : Prop :=
  threshold ≤ a.thickness ∨ a.lithology_code ≠ b.lithology_code ∨
    a.lithology_qualifier ≠ b.lithology_qualifier

instance : Inhabited Candidate :=
  ⟨{ from_depth := 0, to_depth := 0, original_sequence := [], lithologies := [],
     average_layer_thickness := 0, interrelationship_code := "", total_thickness := 0 }⟩

/-- A unit with consistent depths/thickness and default metadata, for concrete
test inputs. -/
def mkUnit (f t : ℚ) (code : String) : LithUnit :=
  { from_depth := f, to_depth := t, thickness := t - f, lithology_code := code }

/-- The spec's §8 scenario: four alternating 0.01 m units of `SS`/`SH`. -/
def exUnitsIL : List LithUnit :=
  [mkUnit 0 0.01 "SS", mkUnit 0.01 0.02 "SH", mkUnit 0.02 0.03 "SS", mkUnit 0.03 0.04 "SH"]

/-- An alternating run whose third lithology holds under 5% of the total
thickness (`SS` 0.1 m, `SH` 0.08 m, `CO` 0.005 m). -/
def exUnits4 : List LithUnit :=
  [mkUnit 0 0.1 "SS", mkUnit 0.1 0.18 "SH", mkUnit 0.18 0.185 "CO"]

/-- Two thick units: no interbedding candidate exists anywhere. -/
def exUnitsNoCand : List LithUnit := [mkUnit 0 1 "SS", mkUnit 1 2 "SH"]

/-- The candidate detected on `exUnitsIL`. -/
def cIL : Candidate := (find_interbedding_candidates exUnitsIL 10 0.5).headI

/-- The candidate detected on `exUnits4`. -/
def c4 : Candidate := (find_interbedding_candidates exUnits4 10 0.5).headI

/-- The last unit produced by applying the `exUnits4` candidate: the
synthesized subordinate (`record_sequence = 2`) component. -/
def uSub : LithUnit :=
  (apply_interbedding_candidates exUnits4 (find_interbedding_candidates exUnits4 10 0.5)
    [0] []).getLastD default

/-- The spec's §8 classification scenario rule `CO`. -/
def coRule : Rule :=
  { code := "CO", name := "Coal", gamma_min := 0, gamma_max := 20,
    density_min := 0, density_max := 1.8 }

/-- The mandatory `NL` default rule. -/
def nlRule : Rule :=
  { code := "NL", name := "Not Logged", gamma_min := -1, gamma_max := -1,
    density_min := -1, density_max := -1 }

/-- A rule matching wide gamma and a real density range. -/
def ruleA : Rule :=
  { code := "AA", gamma_min := 0, gamma_max := 100, density_min := 2, density_max := 3 }

/-- A later rule with a narrower gamma range and wildcard density. -/
def ruleB : Rule :=
  { code := "BB", gamma_min := 0, gamma_max := 50,
    density_min := INVALID_DATA_VALUE, density_max := INVALID_DATA_VALUE }

/-- An 11-row frame of constant readings, density resolved through the
`short_space_density` mnemonic. -/
def exDF : LogFrame :=
  { columns := ["gamma", "DENS"],
    rows := (List.range 11).map fun _ => { gamma := 10, density := 0, short_space_density := 1.5 } }

/-- Mnemonic map resolving only `short_space_density`. -/
def exMap : MnemonicMap := { short_space_density := some "DENS" }

/-- A classified frame with both required columns and no rows. -/
def exEmptyCF : ClassifiedFrame := ⟨["DEPT", "LITHOLOGY_CODE"], []⟩

/-- A one-row frame whose gamma matches both `ruleA` and the later `ruleB`,
and whose density matches `ruleA`. -/
def exDF2 : LogFrame :=
  { columns := ["gamma", "DENS"], rows := [{ gamma := 10, short_space_density := 2.5 }] }

/-- The spec's acceptance criteria for an alternating run, stated from the
spec's words: at least 3 units, mean per-unit thickness (total thickness
divided by unit count) strictly below 0.2 m, and at least 2 lithology
components surviving the dominance filter. -/
def spec_run_qualifies (units : List LithUnit) (start_idx max_sequence_length : ℕ)
    (thick_unit_threshold : ℚ) : Prop :=
  let seq := extract_alternating_sequence units start_idx max_sequence_length thick_unit_threshold
  3 ≤ seq.length ∧
  (seq.map LithUnit.thickness).sum / seq.length < 0.2 ∧
  2 ≤ (buildComponents (sortedLithologies seq) ((seq.map LithUnit.thickness).sum)).length

instance (units : List LithUnit) (start_idx max_sequence_length : ℕ)
    (thick_unit_threshold : ℚ) :
    Decidable (spec_run_qualifies units start_idx max_sequence_length thick_unit_threshold) := by
  unfold spec_run_qualifies
  exact inferInstance

end Earthworm

namespace Earthworm

/-- C7: when the gamma column or every density channel is unresolved,
`classify_rows` returns the full sample set all at the default `NL` code and
emits the warning instead of raising. -/
theorem classify_rows_missing_channel (df : LogFrame) (rules : List Rule)
    (m : MnemonicMap) (use_researched_defaults use_fallback_classification : Bool)
    (h : "gamma" ∉ df.columns ∨ resolveDensityChannel m df.columns = none) :
    classify_rows df rules m use_researched_defaults use_fallback_classification
      = ⟨df.rows.map fun _ => "NL", true⟩ := by
  unfold classify_rows
  rcases h with h | h
  · rw [if_pos h]
  · by_cases hg : "gamma" ∉ df.columns
    · rw [if_pos hg]
    · rw [if_neg hg, h]

/-- Witness for C7 at a frame with no `gamma` column. -/
theorem classify_rows_missing_channel_witness :
    classify_rows ⟨["DEPT"], [{ gamma := 5 }]⟩ [coRule, nlRule] exMap true false
      = ⟨["NL"], true⟩ :=
  classify_rows_missing_channel _ _ _ _ _ (Or.inl (by decide))

/-- C8: `group_into_units` fails with a structural error exactly when the
lithology-code column or the depth column is absent; with both present and no
rows it returns the empty but correctly-typed unit table. -/
theorem group_into_units_contract (df : ClassifiedFrame) (rules : List Rule) :
    ((∃ e, group_into_units df rules = .error e) ↔
      ("LITHOLOGY_CODE" ∉ df.columns ∨ "DEPT" ∉ df.columns)) ∧
    (df.rows = [] → "LITHOLOGY_CODE" ∈ df.columns → "DEPT" ∈ df.columns →
      group_into_units df rules = .ok ⟨unitColumns, []⟩) := by
  constructor
  · unfold group_into_units
    by_cases h1 : "LITHOLOGY_CODE" ∉ df.columns
    · simp [h1]
    · by_cases h2 : "DEPT" ∉ df.columns
      · simp [h1, h2]
      · simp [h1, h2]
  · intro hrows h1 h2
    unfold group_into_units
    rw [if_neg (not_not_intro h1), if_neg (not_not_intro h2), hrows]
    rfl

/-- Witness for C8: both columns present, no rows, empty typed output. -/
theorem group_into_units_contract_witness :
    group_into_units exEmptyCF [coRule, nlRule] = .ok ⟨unitColumns, []⟩ :=
  (group_into_units_contract exEmptyCF [coRule, nlRule]).2 rfl (by decide) (by decide)

/-- Every candidate in the scan loop's output comes from
`find_interbedding_candidate` at some start index. -/
theorem mem_findCandidatesLoop {units : List LithUnit} {max_sequence_length : ℕ}
    {thick_unit_threshold : ℚ} :
    ∀ {fuel i : ℕ} {c : Candidate},
      c ∈ findCandidatesLoop units max_sequence_length thick_unit_threshold fuel i →
      ∃ j, find_interbedding_candidate units j max_sequence_length thick_unit_threshold = some c := by
  intro fuel
  induction fuel with
  | zero => intro i c h; simp [findCandidatesLoop] at h
  | succ n ih =>
    intro i c h
    unfold findCandidatesLoop at h
    by_cases hi : i < units.length
    · rw [if_pos hi] at h
      cases hfc : find_interbedding_candidate units i max_sequence_length thick_unit_threshold with
      | none => rw [hfc] at h; exact ih h
      | some c' =>
        rw [hfc] at h
        rcases List.mem_cons.mp h with h | h
        · exact ⟨i, h ▸ hfc⟩
        · exact ih h
    · rw [if_neg hi] at h
      simp at h

/-- Every candidate returned by `find_interbedding_candidates` comes from
`find_interbedding_candidate` at some start index. -/
theorem mem_find_interbedding_candidates {units : List LithUnit}
    {max_sequence_length : ℕ} {thick_unit_threshold : ℚ} {c : Candidate}
    (h : c ∈ find_interbedding_candidates units max_sequence_length thick_unit_threshold) :
    ∃ j, find_interbedding_candidate units j max_sequence_length thick_unit_threshold = some c := by
  unfold find_interbedding_candidates at h
  by_cases hl : units.length ≤ 1
  · rw [if_pos hl] at h; simp at h
  · rw [if_neg hl] at h; exact mem_findCandidatesLoop h

/-- Field contents of an accepted candidate, read off the construction in
`find_interbedding_candidate`. -/
theorem find_candidate_some_spec {units : List LithUnit} {i max_sequence_length : ℕ}
    {thick_unit_threshold : ℚ} {c : Candidate}
    (h : find_interbedding_candidate units i max_sequence_length thick_unit_threshold = some c) :
    c.original_sequence = extract_alternating_sequence units i max_sequence_length thick_unit_threshold ∧
    c.total_thickness = (c.original_sequence.map LithUnit.thickness).sum ∧
    c.average_layer_thickness = c.total_thickness / c.original_sequence.length ∧
    c.average_layer_thickness < 0.2 ∧
    c.interrelationship_code = interCodeOf c.average_layer_thickness ∧
    c.lithologies = buildComponents (sortedLithologies c.original_sequence) c.total_thickness ∧
    2 ≤ c.lithologies.length ∧ 3 ≤ c.original_sequence.length := by
  unfold find_interbedding_candidate at h
  by_cases h0 : units.length ≤ i
  · rw [if_pos h0] at h; cases h
  rw [if_neg h0] at h
  by_cases h1 : (extract_alternating_sequence units i max_sequence_length thick_unit_threshold).length < 3
  · rw [if_pos h1] at h; cases h
  rw [if_neg h1] at h
  by_cases h2 : (0.2 : ℚ) ≤
      ((extract_alternating_sequence units i max_sequence_length thick_unit_threshold).map
        LithUnit.thickness).sum /
      (extract_alternating_sequence units i max_sequence_length thick_unit_threshold).length
  · rw [if_pos h2] at h; cases h
  rw [if_neg h2] at h
  by_cases h3 : (buildComponents
      (sortedLithologies (extract_alternating_sequence units i max_sequence_length thick_unit_threshold))
      (((extract_alternating_sequence units i max_sequence_length thick_unit_threshold).map
        LithUnit.thickness).sum)).length < 2
  · rw [if_pos h3] at h; cases h
  rw [if_neg h3] at h
  cases h
  refine ⟨rfl, rfl, rfl, lt_of_not_le h2, rfl, rfl, le_of_not_lt h3, le_of_not_lt h1⟩

/-- C9: every candidate produced by `find_interbedding_candidates` carries the
interrelationship code determined by its mean per-unit thickness `m`:
`IL` for `m < 0.02`, `UB` for `0.02 ≤ m < 0.06`, `TB` for `0.06 ≤ m < 0.2`,
and `CB` otherwise. -/
theorem candidate_interrelationship_code (units : List LithUnit)
    (max_sequence_length : ℕ) (thick_unit_threshold : ℚ) (c : Candidate)
    (h : c ∈ find_interbedding_candidates units max_sequence_length thick_unit_threshold) :
    c.interrelationship_code =
      if c.average_layer_thickness < 0.02 then "IL"
      else if c.average_layer_thickness < 0.06 then "UB"
      else if c.average_layer_thickness < 0.2 then "TB"
      else "CB" := by
  obtain ⟨j, hj⟩ := mem_find_interbedding_candidates h
  exact (find_candidate_some_spec hj).2.2.2.2.1

/-- Witness for C9 at the candidate detected on `exUnitsIL`. -/
theorem candidate_interrelationship_code_witness :
    cIL.interrelationship_code =
      if cIL.average_layer_thickness < 0.02 then "IL"
      else if cIL.average_layer_thickness < 0.06 then "UB"
      else if cIL.average_layer_thickness < 0.2 then "TB"
      else "CB" :=
  candidate_interrelationship_code exUnitsIL 10 0.5 cIL (by with_unfolding_all decide)

/-- C10: the `CB` branch is unreachable — the `< 0.2 m` acceptance gate runs
before the code is assigned, so every returned candidate's code lies in
`{IL, UB, TB}` and is never `CB`. -/
theorem candidate_code_never_CB (units : List LithUnit)
    (max_sequence_length : ℕ) (thick_unit_threshold : ℚ) (c : Candidate)
    (h : c ∈ find_interbedding_candidates units max_sequence_length thick_unit_threshold) :
    (c.interrelationship_code = "IL" ∨ c.interrelationship_code = "UB" ∨
      c.interrelationship_code = "TB") ∧ c.interrelationship_code ≠ "CB" := by
  obtain ⟨j, hj⟩ := mem_find_interbedding_candidates h
  obtain ⟨-, -, -, havg, hcode, -⟩ := find_candidate_some_spec hj
  rw [hcode]
  unfold interCodeOf
  by_cases h1 : c.average_layer_thickness < 0.02
  · rw [if_pos h1]; exact ⟨Or.inl rfl, by decide⟩
  · rw [if_neg h1]
    by_cases h2 : c.average_layer_thickness < 0.06
    · rw [if_pos h2]; exact ⟨Or.inr (Or.inl rfl), by decide⟩
    · rw [if_neg h2, if_pos havg]
      exact ⟨Or.inr (Or.inr rfl), by decide⟩

/-- Witness for C10 at the candidate detected on `exUnitsIL`. -/
theorem candidate_code_never_CB_witness :
    (cIL.interrelationship_code = "IL" ∨ cIL.interrelationship_code = "UB" ∨
      cIL.interrelationship_code = "TB") ∧ cIL.interrelationship_code ≠ "CB" :=
  candidate_code_never_CB exUnitsIL 10 0.5 cIL (by with_unfolding_all decide)

/-- C5: `find_interbedding_candidate` accepts a run exactly when the three
acceptance criteria hold, and on rejection the scan loop of
`find_interbedding_candidates` advances by exactly one unit. -/
theorem find_candidate_acceptance (units : List LithUnit)
    (start_idx max_sequence_length : ℕ) (thick_unit_threshold : ℚ) :
    ((find_interbedding_candidate units start_idx max_sequence_length thick_unit_threshold).isSome ↔
      spec_run_qualifies units start_idx max_sequence_length thick_unit_threshold) ∧
    (∀ fuel,
      find_interbedding_candidate units start_idx max_sequence_length thick_unit_threshold = none →
      findCandidatesLoop units max_sequence_length thick_unit_threshold (fuel + 1) start_idx
        = findCandidatesLoop units max_sequence_length thick_unit_threshold fuel (start_idx + 1)) := by
  constructor
  · unfold find_interbedding_candidate spec_run_qualifies
    by_cases h0 : units.length ≤ start_idx
    · rw [if_pos h0]
      have hseq : extract_alternating_sequence units start_idx max_sequence_length
          thick_unit_threshold = [] := by
        unfold extract_alternating_sequence
        rw [List.drop_eq_nil_of_le h0, List.take_nil]
        rfl
      simp [hseq]
    · rw [if_neg h0]
      by_cases h1 : (extract_alternating_sequence units start_idx max_sequence_length
          thick_unit_threshold).length < 3
      · rw [if_pos h1]
        simp only [Option.isSome_none, Bool.false_eq_true, false_iff]
        intro hq
        exact absurd hq.1 (not_le.mpr h1)
      · rw [if_neg h1]
        by_cases h2 : (0.2 : ℚ) ≤
            ((extract_alternating_sequence units start_idx max_sequence_length
              thick_unit_threshold).map LithUnit.thickness).sum /
            (extract_alternating_sequence units start_idx max_sequence_length
              thick_unit_threshold).length
        · rw [if_pos h2]
          simp only [Option.isSome_none, Bool.false_eq_true, false_iff]
          intro hq
          exact absurd hq.2.1 (not_lt.mpr h2)
        · rw [if_neg h2]
          by_cases h3 : (buildComponents
              (sortedLithologies (extract_alternating_sequence units start_idx
                max_sequence_length thick_unit_threshold))
              (((extract_alternating_sequence units start_idx max_sequence_length
                thick_unit_threshold).map LithUnit.thickness).sum)).length < 2
          · rw [if_pos h3]
            simp only [Option.isSome_none, Bool.false_eq_true, false_iff]
            intro hq
            exact absurd hq.2.2 (not_le.mpr h3)
          · rw [if_neg h3]
            simp only [Option.isSome_some, true_iff]
            exact ⟨not_lt.mp h1, not_le.mp h2, not_lt.mp h3⟩
  · intro fuel hnone
    by_cases hi : start_idx < units.length
    · show (if start_idx < units.length then _ else _) = _
      rw [if_pos hi, hnone]
    · show (if start_idx < units.length then _ else _) = _
      rw [if_neg hi]
      cases fuel with
      | zero => rfl
      | succ n =>
        show _ = (if start_idx + 1 < units.length then _ else _)
        rw [if_neg (by omega)]

/-- Witness for C5: the `exUnitsIL` run at index 0 qualifies and yields a
candidate; on `exUnitsNoCand` (a rejected run) the scan advances from index 0
to index 1. -/
theorem find_candidate_acceptance_witness :
    (find_interbedding_candidate exUnitsIL 0 10 0.5).isSome ∧
    findCandidatesLoop exUnitsNoCand 10 0.5 6 0 = findCandidatesLoop exUnitsNoCand 10 0.5 5 1 :=
  ⟨((find_candidate_acceptance exUnitsIL 0 10 0.5).1).mpr (by with_unfolding_all decide),
   (find_candidate_acceptance exUnitsNoCand 0 10 0.5).2 5 (by with_unfolding_all decide)⟩

/-- Every synthesized unit of a candidate spans the candidate's depth range
and carries the full span thickness, for dominant and subordinate components
alike; the interrelationship code is set only on the sequence-1 record. -/
theorem mem_synthUnits {rules : List Rule} {c : Candidate} {u : LithUnit}
    (h : u ∈ synthUnits rules c) :
    u.from_depth = c.from_depth ∧ u.to_depth = c.to_depth ∧
    u.thickness = c.to_depth - c.from_depth ∧
    ∃ l ∈ c.lithologies, u.record_sequence = some l.sequence ∧
      u.inter_relationship = (if l.sequence = 1 then c.interrelationship_code else "") := by
  obtain ⟨l, hl, rfl⟩ := List.mem_map.mp h
  exact ⟨rfl, rfl, rfl, l, hl, rfl, rfl⟩

/-- Every unit in the output of the application cursor walk is either one of
the remaining input units or a synthesized unit of one of the candidates. -/
theorem mem_applyLoop {rules : List Rule} :
    ∀ {cs : List Candidate} {rem : List LithUnit} {u : LithUnit},
      u ∈ applyLoop rules cs rem → u ∈ rem ∨ ∃ c ∈ cs, u ∈ synthUnits rules c := by
  intro cs
  induction cs with
  | nil => intro rem u h; exact Or.inl h
  | cons c cs ih =>
    intro rem u h
    unfold applyLoop at h
    rcases List.mem_append.mp h with h | h
    · rcases List.mem_append.mp h with h | h
      · exact Or.inl ((List.takeWhile_sublist _).mem h)
      · exact Or.inr ⟨c, List.mem_cons_self c cs, h⟩
    · rcases ih h with h | ⟨c', hc', hu⟩
      · exact Or.inl (List.Sublist.mem (List.Sublist.mem h (List.dropWhile_sublist _))
          (List.dropWhile_sublist _))
      · exact Or.inr ⟨c', List.mem_cons_of_mem c hc', hu⟩

set_option maxRecDepth 4000 in
/-- C3 counterexample: applying the candidate detected on `exUnits4`, the
subordinate (`record_sequence = 2`) synthesized unit carries the full span
thickness `0.185`, not zero. -/
theorem apply_candidates_subordinate_thickness_cex :
    (apply_interbedding_candidates exUnits4 (find_interbedding_candidates exUnits4 10 0.5)
        [0] []).map (fun u => (u.record_sequence, u.thickness))
      = [(some 1, 0.185), (some 2, 0.185)] ∧ (0.185 : ℚ) ≠ 0 := by
  with_unfolding_all decide

/-- C3 amended: every application of a selected candidate replaces its span by
one synthesized unit per retained component, each with `from_depth`/`to_depth`
equal to the candidate span — but every component, the subordinate
(`sequence > 1`) ones included, carries the full span thickness
`to_depth - from_depth`; no synthesized unit has zero thickness on a
nondegenerate span.  (`inter_relationship` is still set only on the
sequence-1 record.) -/
theorem apply_candidates_span_units (units : List LithUnit) (candidates : List Candidate)
    (selected_indices : List ℕ) (rules : List Rule) (u : LithUnit)
    (h : u ∈ apply_interbedding_candidates units candidates selected_indices rules) :
    u ∈ units ∨ ∃ c ∈ selectedCandidates candidates selected_indices,
      u.from_depth = c.from_depth ∧ u.to_depth = c.to_depth ∧
      u.thickness = c.to_depth - c.from_depth ∧
      ∃ l ∈ c.lithologies, u.record_sequence = some l.sequence ∧
        u.inter_relationship = (if l.sequence = 1 then c.interrelationship_code else "") := by
  unfold apply_interbedding_candidates at h
  by_cases hs : selected_indices = []
  · rw [if_pos hs] at h
    exact Or.inl h
  · rw [if_neg hs] at h
    rcases mem_applyLoop h with h | ⟨c, hc, hu⟩
    · exact Or.inl h
    · exact Or.inr ⟨c, hc, mem_synthUnits hu⟩

set_option maxRecDepth 4000 in
/-- Witness for the amended C3 at the synthesized subordinate unit `uSub`. -/
theorem apply_candidates_span_units_witness :
    uSub ∈ exUnits4 ∨ ∃ c ∈ selectedCandidates (find_interbedding_candidates exUnits4 10 0.5) [0],
      uSub.from_depth = c.from_depth ∧ uSub.to_depth = c.to_depth ∧
      uSub.thickness = c.to_depth - c.from_depth ∧
      ∃ l ∈ c.lithologies, uSub.record_sequence = some l.sequence ∧
        uSub.inter_relationship = (if l.sequence = 1 then c.interrelationship_code else "") :=
  apply_candidates_span_units exUnits4 (find_interbedding_candidates exUnits4 10 0.5) [0] []
    uSub (by with_unfolding_all decide)

/-- Rounding to two decimals moves a rational by at most `1/200`. -/
theorem abs_round2_sub (q : ℚ) : |round2 q - q| ≤ 1 / 200 := by
  unfold round2
  have h := abs_sub_round (q * 100)
  rw [abs_sub_comm] at h
  have key : (round (q * 100) : ℚ) / 100 - q = ((round (q * 100) : ℚ) - q * 100) / 100 := by
    ring
  rw [key, abs_div]
  have h100 : |(100 : ℚ)| = 100 := by norm_num
  rw [h100]
  linarith

/-- Each retained component's stored percentage is the rounding of its own
exact thickness share. -/
theorem mem_buildComponents {s : List (String × ℚ)} {T : ℚ} {l : LithComp}
    (h : l ∈ buildComponents s T) :
    l.percentage = round2 (l.thickness / T * 100) := by
  obtain ⟨p, _, hp⟩ := List.mem_filterMap.mp h
  by_cases hc : 1 < p.1 + 1 ∧ p.2.2 / T * 100 < 5
  · rw [if_pos hc] at hp; cases hp
  · rw [if_neg hc] at hp
    cases hp
    rfl

/-- Lemma: `bump` adds the unit's thickness into the grouped totals. -/
theorem bump_sum (c : String) (t : ℚ) :
    ∀ acc : List (String × ℚ), ((bump acc c t).map Prod.snd).sum = (acc.map Prod.snd).sum + t := by
  intro acc
  induction acc with
  | nil => simp [bump]
  | cons p rest ih =>
    by_cases hc : p.1 = c
    · simp only [bump, if_pos hc, List.map_cons, List.sum_cons]
      ring
    · simp only [bump, if_neg hc, List.map_cons, List.sum_cons, ih]
      ring

/-- The grouped per-code totals sum to the total thickness of the run. -/
theorem lithologyThicknesses_sum (seq : List LithUnit) :
    ((lithologyThicknesses seq).map Prod.snd).sum = (seq.map LithUnit.thickness).sum := by
  suffices h : ∀ acc : List (String × ℚ),
      ((seq.foldl (fun a u => bump a u.lithology_code u.thickness) acc).map Prod.snd).sum
        = (acc.map Prod.snd).sum + (seq.map LithUnit.thickness).sum by
    simpa using h []
  induction seq with
  | nil => intro acc; simp
  | cons u rest ih =>
    intro acc
    simp only [List.foldl_cons, List.map_cons, List.sum_cons, ih, bump_sum]
    ring

/-- The ranked components still sum to the total thickness of the run. -/
theorem sortedLithologies_sum (seq : List LithUnit) :
    ((sortedLithologies seq).map Prod.snd).sum = (seq.map LithUnit.thickness).sum := by
  unfold sortedLithologies
  rw [((List.perm_insertionSort thickGe (lithologyThicknesses seq)).map Prod.snd).sum_eq]
  exact lithologyThicknesses_sum seq

/-- The retained components' thicknesses and the dropped components'
thicknesses partition the grouped totals. -/
theorem buildComponents_partition (s : List (String × ℚ)) (T : ℚ) :
    ((buildComponents s T).map LithComp.thickness).sum + (droppedThicknesses s T).sum
      = (s.map Prod.snd).sum := by
  unfold buildComponents droppedThicknesses
  have key : ∀ e : List (ℕ × (String × ℚ)),
      ((e.filterMap fun p =>
          if 1 < p.1 + 1 ∧ p.2.2 / T * 100 < 5 then none
          else some (⟨p.2.1, p.2.2, round2 (p.2.2 / T * 100), p.1 + 1⟩ : LithComp)).map
        LithComp.thickness).sum
      + ((e.filter fun p => decide (1 < p.1 + 1 ∧ p.2.2 / T * 100 < 5)).map fun p => p.2.2).sum
      = (e.map fun p => p.2.2).sum := by
    intro e
    induction e with
    | nil => simp
    | cons q e' ih =>
      by_cases hc : 1 < q.1 + 1 ∧ q.2.2 / T * 100 < 5
      · rw [List.filterMap_cons, if_pos hc, List.filter_cons, if_pos (by simpa using hc)]
        simp only [List.map_cons, List.sum_cons]
        rw [← ih]
        ring
      · rw [List.filterMap_cons, if_neg hc, List.filter_cons, if_neg (by simpa using hc)]
        simp only [List.map_cons, List.sum_cons]
        rw [← ih]
        ring
  rw [key s.enum]
  rw [show (fun p : ℕ × (String × ℚ) => p.2.2) = Prod.snd ∘ Prod.snd from rfl]
  rw [← List.map_map, List.enum_map_snd]

/-- Summing the exact shares factors out the division by the total. -/
theorem sum_exact_shares (l : List LithComp) (T : ℚ) :
    (l.map fun x => x.thickness / T * 100).sum = (l.map LithComp.thickness).sum / T * 100 := by
  induction l with
  | nil => simp
  | cons x xs ih =>
    simp only [List.map_cons, List.sum_cons, ih]
    ring

/-- Rounded percentages deviate from the exact shares by at most `1/200` per
component. -/
theorem sum_percentage_bound (T : ℚ) :
    ∀ l : List LithComp, (∀ x ∈ l, x.percentage = round2 (x.thickness / T * 100)) →
      |(l.map LithComp.percentage).sum - (l.map fun x => x.thickness / T * 100).sum|
        ≤ (l.length : ℚ) / 200 := by
  intro l
  induction l with
  | nil => intro _; simp
  | cons x xs ih =>
    intro hal
    have hx := hal x (List.mem_cons_self x xs)
    have hxs := ih fun y hy => hal y (List.mem_cons_of_mem x hy)
    simp only [List.map_cons, List.sum_cons, List.length_cons]
    have habs : |x.percentage + (xs.map LithComp.percentage).sum
        - (x.thickness / T * 100 + (xs.map fun y => y.thickness / T * 100).sum)|
        ≤ |x.percentage - x.thickness / T * 100|
          + |(xs.map LithComp.percentage).sum - (xs.map fun y => y.thickness / T * 100).sum| := by
      have := abs_add (x.percentage - x.thickness / T * 100)
        ((xs.map LithComp.percentage).sum - (xs.map fun y => y.thickness / T * 100).sum)
      calc |x.percentage + (xs.map LithComp.percentage).sum
          - (x.thickness / T * 100 + (xs.map fun y => y.thickness / T * 100).sum)|
          = |(x.percentage - x.thickness / T * 100)
            + ((xs.map LithComp.percentage).sum - (xs.map fun y => y.thickness / T * 100).sum)| := by
            congr 1
            ring
        _ ≤ _ := this
    refine le_trans habs ?_
    have h1 : |x.percentage - x.thickness / T * 100| ≤ 1 / 200 := by
      rw [hx]
      exact abs_round2_sub _
    have h2 := hxs
    push_cast
    linarith

/-- C4 amended: for every accepted candidate, each retained component's
percentage is the rounding to two decimals of its own exact thickness share;
the grouped components' thicknesses sum to the run's total, partitioned
between retained and dropped components; and the retained percentages sum —
within the `1/200`-per-component rounding tolerance — to `100` minus the
dropped components' share.  The dominant component's percentage never absorbs
the dropped share. -/
theorem candidate_percentage_partition (units : List LithUnit)
    (max_sequence_length : ℕ) (thick_unit_threshold : ℚ) (c : Candidate)
    (h : c ∈ find_interbedding_candidates units max_sequence_length thick_unit_threshold) :
    (∀ l ∈ c.lithologies, l.percentage = round2 (l.thickness / c.total_thickness * 100)) ∧
    ((sortedLithologies c.original_sequence).map Prod.snd).sum = c.total_thickness ∧
    ((c.lithologies.map LithComp.thickness).sum
        + (droppedThicknesses (sortedLithologies c.original_sequence) c.total_thickness).sum
      = c.total_thickness) ∧
    (c.total_thickness ≠ 0 →
      |(c.lithologies.map LithComp.percentage).sum
          - (100 - (droppedThicknesses (sortedLithologies c.original_sequence)
              c.total_thickness).sum / c.total_thickness * 100)|
        ≤ (c.lithologies.length : ℚ) / 200) := by
  obtain ⟨j, hj⟩ := mem_find_interbedding_candidates h
  obtain ⟨-, htot, -, -, -, hlith, -, -⟩ := find_candidate_some_spec hj
  have hsum : ((sortedLithologies c.original_sequence).map Prod.snd).sum = c.total_thickness := by
    rw [sortedLithologies_sum, htot]
  have hpart : (c.lithologies.map LithComp.thickness).sum
      + (droppedThicknesses (sortedLithologies c.original_sequence) c.total_thickness).sum
      = c.total_thickness := by
    rw [hlith, buildComponents_partition, hsum]
  have hpct : ∀ l ∈ c.lithologies, l.percentage = round2 (l.thickness / c.total_thickness * 100) := by
    intro l hl
    rw [hlith] at hl
    exact mem_buildComponents hl
  refine ⟨hpct, hsum, hpart, ?_⟩
  intro hT
  have hexact : (c.lithologies.map fun x => x.thickness / c.total_thickness * 100).sum
      = 100 - (droppedThicknesses (sortedLithologies c.original_sequence)
          c.total_thickness).sum / c.total_thickness * 100 := by
    rw [sum_exact_shares]
    have hret : (c.lithologies.map LithComp.thickness).sum
        = c.total_thickness - (droppedThicknesses (sortedLithologies c.original_sequence)
            c.total_thickness).sum := by
      linarith [hpart]
    rw [hret]
    field_simp
    ring
  rw [← hexact]
  exact sum_percentage_bound c.total_thickness c.lithologies hpct

set_option maxRecDepth 4000 in
/-- C4 counterexample: on `exUnits4` the accepted candidate retains `SS`
(54.05%) and `SH` (43.24%) and drops `CO` (2.70%); the retained percentages
sum to 97.29, missing 100 by 2.71 — far beyond the `2/200` tolerance of two
two-decimal roundings — and the dominant percentage is 54.05, the rounding of
its own share, not the absorbed 56.76. -/
theorem candidate_percentage_law_cex :
    (find_interbedding_candidates exUnits4 10 0.5).map
        (fun c => c.lithologies.map LithComp.percentage) = [[54.05, 43.24]] ∧
    ((54.05 : ℚ) + 43.24 = 97.29) ∧ (100 : ℚ) - 97.29 = 2.71 ∧ ((2 : ℚ) / 200 < 2.71) ∧
    round2 ((0.1 + 0.005) / 0.185 * 100) = 56.76 ∧ (54.05 : ℚ) ≠ 56.76 :=
  ⟨by with_unfolding_all decide, by norm_num, by norm_num, by norm_num,
   by with_unfolding_all decide, by norm_num⟩

set_option maxRecDepth 4000 in
/-- Witness for the amended C4 at the candidate detected on `exUnits4`. -/
theorem candidate_percentage_partition_witness :
    (∀ l ∈ c4.lithologies, l.percentage = round2 (l.thickness / c4.total_thickness * 100)) ∧
    ((sortedLithologies c4.original_sequence).map Prod.snd).sum = c4.total_thickness ∧
    ((c4.lithologies.map LithComp.thickness).sum
        + (droppedThicknesses (sortedLithologies c4.original_sequence) c4.total_thickness).sum
      = c4.total_thickness) ∧
    (c4.total_thickness ≠ 0 →
      |(c4.lithologies.map LithComp.percentage).sum
          - (100 - (droppedThicknesses (sortedLithologies c4.original_sequence)
              c4.total_thickness).sum / c4.total_thickness * 100)|
        ≤ (c4.lithologies.length : ℚ) / 200) :=
  candidate_percentage_partition exUnits4 10 0.5 c4 (by with_unfolding_all decide)

/-- Lemma: `zipWith` by a pointwise right identity is the identity on equal-length
lists. -/
theorem zipWith_id_of_eq_length {α β : Type} (f : α → β → β) (hf : ∀ a b, f a b = b) :
    ∀ (l : List α) (l' : List β), l'.length = l.length → List.zipWith f l l' = l' := by
  intro l
  induction l with
  | nil =>
    intro l' h
    rw [List.length_nil, List.length_eq_zero] at h
    subst h
    rfl
  | cons a as ih =>
    intro l' h
    cases l' with
    | nil => rfl
    | cons b bs =>
      simp only [List.zipWith_cons_cons, hf]
      rw [ih bs (by simpa using h)]

/-- Fusing two `zipWith`s over the same left list. -/
theorem zipWith_fuse {α β : Type} (f g : α → β → β) :
    ∀ (l : List α) (l' : List β),
      List.zipWith f l (List.zipWith g l l') = List.zipWith (fun a b => f a (g a b)) l l' := by
  intro l
  induction l with
  | nil => intro l'; rfl
  | cons a as ih =>
    intro l'
    cases l' with
    | nil => rfl
    | cons b bs => simp only [List.zipWith_cons_cons, ih]

/-- The rule loop of `classify_rows` computes, on every sample still at the
code it entered with, the first-match-wins classification. -/
theorem foldl_stepRule_char (use_researched_defaults : Bool) :
    ∀ (rules : List Rule) (samples : List (ℚ × ℚ)) (codes : List String),
      codes.length = samples.length →
      rules.foldl (fun cs r => stepRule use_researched_defaults r samples cs) codes
        = List.zipWith
            (fun s c => if c = "NL" then
              firstMatchCode use_researched_defaults rules s.1 s.2 else c)
            samples codes := by
  intro rules
  induction rules with
  | nil =>
    intro samples codes h
    simp only [List.foldl_nil, firstMatchCode]
    exact (zipWith_id_of_eq_length _
      (fun a b => by by_cases hb : b = "NL" <;> simp [hb]) samples codes h).symm
  | cons r rs ih =>
    intro samples codes h
    rw [List.foldl_cons]
    have hlen : (stepRule use_researched_defaults r samples codes).length = samples.length := by
      unfold stepRule
      by_cases hr : r.code = "NL"
      · rw [if_pos hr]; exact h
      · rw [if_neg hr]; simp [h]
    rw [ih samples _ hlen]
    by_cases hr : r.code = "NL"
    · unfold stepRule
      rw [if_pos hr]
      congr 1
      funext s c
      simp [firstMatchCode, hr]
    · unfold stepRule
      rw [if_neg hr, zipWith_fuse]
      congr 1
      funext s c
      by_cases hc : c = "NL"
      · subst hc
        by_cases hm : ruleMatches use_researched_defaults r s.1 s.2
        · simp [firstMatchCode, hr, hm]
        · simp [firstMatchCode, hr, hm]
      · simp [firstMatchCode, hc]

/-- The standard-mode rule loop, started from the all-`NL` column, assigns
every sample its first-match-wins code. -/
theorem classifyCore_eq_firstMatch (use_researched_defaults : Bool) (rules : List Rule)
    (samples : List (ℚ × ℚ)) :
    classifyCore use_researched_defaults rules samples
      = samples.map fun s => firstMatchCode use_researched_defaults rules s.1 s.2 := by
  unfold classifyCore
  rw [foldl_stepRule_char use_researched_defaults rules samples _ (by simp)]
  rw [List.zipWith_map_right, List.zipWith_same]
  simp

/-- C1: standard-mode rule precedence of `classify_rows` — with the channels
resolved (and fallback off), every sample's code is that of the first non-`NL`
rule whose (possibly defaults-substituted) gamma and density ranges both
contain the sample's values, or `NL` when no rule matches; later matching
rules never overwrite it. -/
theorem classify_rows_rule_precedence (df : LogFrame) (rules : List Rule)
    (m : MnemonicMap) (use_researched_defaults : Bool) (ch : DensityChannel)
    (hg : "gamma" ∈ df.columns) (hd : resolveDensityChannel m df.columns = some ch) :
    (classify_rows df rules m use_researched_defaults false).codes
      = df.rows.map fun r =>
          firstMatchCode use_researched_defaults rules r.gamma (densityValue ch r) := by
  unfold classify_rows
  rw [if_neg (not_not_intro hg), hd]
  simp only [Bool.false_eq_true, if_false]
  rw [classifyCore_eq_firstMatch, List.map_map]
  rfl

/-- Witness for C1 on the 11-sample constant frame. -/
theorem classify_rows_rule_precedence_witness :
    (classify_rows exDF [coRule, nlRule] exMap true false).codes
      = exDF.rows.map fun r =>
          firstMatchCode true [coRule, nlRule] r.gamma (densityValue .shortSpace r) :=
  classify_rows_rule_precedence exDF [coRule, nlRule] exMap true .shortSpace
    (by decide) (by decide)

/-- Pass 1 of `classify_rows_simple` computes, on every sample still at the
code it entered with, the first non-`NL`, non-wildcard density match. -/
theorem foldl_simpleDensityStep_char :
    ∀ (rules : List Rule) (samples : List (ℚ × ℚ)) (codes : List String),
      codes.length = samples.length →
      rules.foldl (fun cs r => simpleDensityStep r samples cs) codes
        = List.zipWith
            (fun s c => if c = "NL" then firstDensityMatchCode rules s.2 else c)
            samples codes := by
  intro rules
  induction rules with
  | nil =>
    intro samples codes h
    simp only [List.foldl_nil, firstDensityMatchCode]
    exact (zipWith_id_of_eq_length _
      (fun a b => by by_cases hb : b = "NL" <;> simp [hb]) samples codes h).symm
  | cons r rs ih =>
    intro samples codes h
    rw [List.foldl_cons]
    have hlen : (simpleDensityStep r samples codes).length = samples.length := by
      unfold simpleDensityStep
      by_cases hr : r.code = "NL"
      · rw [if_pos hr]; exact h
      · rw [if_neg hr]
        by_cases hw : r.density_min = INVALID_DATA_VALUE ∧ r.density_max = INVALID_DATA_VALUE
        · rw [if_pos hw]; exact h
        · rw [if_neg hw]; simp [h]
    rw [ih samples _ hlen]
    by_cases hr : r.code = "NL"
    · unfold simpleDensityStep
      rw [if_pos hr]
      congr 1
      funext s c
      simp [firstDensityMatchCode, hr]
    · by_cases hw : r.density_min = INVALID_DATA_VALUE ∧ r.density_max = INVALID_DATA_VALUE
      · unfold simpleDensityStep
        rw [if_neg hr, if_pos hw]
        congr 1
        funext s c
        simp [firstDensityMatchCode, hw]
      · unfold simpleDensityStep
        rw [if_neg hr, if_neg hw, zipWith_fuse]
        congr 1
        funext s c
        by_cases hc : c = "NL"
        · subst hc
          by_cases hm : r.density_min ≤ s.2 ∧ s.2 ≤ r.density_max
          · simp [firstDensityMatchCode, hr, hw, hm]
          · simp [firstDensityMatchCode, hm]
        · simp [firstDensityMatchCode, hc]

/-- Pass 2 of `classify_rows_simple` overwrites each sample with its last
non-`NL`, non-wildcard gamma match, keeping the incoming code when no gamma
rule matches. -/
theorem foldl_simpleGammaStep_char :
    ∀ (rules : List Rule) (samples : List (ℚ × ℚ)) (codes : List String),
      codes.length = samples.length →
      rules.foldl (fun cs r => simpleGammaStep r samples cs) codes
        = List.zipWith (fun s c => (lastGammaMatchCode rules s.1).getD c) samples codes := by
  intro rules
  induction rules with
  | nil =>
    intro samples codes h
    simp only [List.foldl_nil, lastGammaMatchCode]
    exact (zipWith_id_of_eq_length _ (fun a b => rfl) samples codes h).symm
  | cons r rs ih =>
    intro samples codes h
    rw [List.foldl_cons]
    have hlen : (simpleGammaStep r samples codes).length = samples.length := by
      unfold simpleGammaStep
      by_cases hr : r.code = "NL"
      · rw [if_pos hr]; exact h
      · rw [if_neg hr]
        by_cases hw : r.gamma_min = INVALID_DATA_VALUE ∧ r.gamma_max = INVALID_DATA_VALUE
        · rw [if_pos hw]; exact h
        · rw [if_neg hw]; simp [h]
    rw [ih samples _ hlen]
    by_cases hr : r.code = "NL"
    · unfold simpleGammaStep
      rw [if_pos hr]
      congr 1
      funext s c
      cases hl : lastGammaMatchCode rs s.1 <;> simp [lastGammaMatchCode, hl, hr]
    · by_cases hw : r.gamma_min = INVALID_DATA_VALUE ∧ r.gamma_max = INVALID_DATA_VALUE
      · unfold simpleGammaStep
        rw [if_neg hr, if_pos hw]
        congr 1
        funext s c
        cases hl : lastGammaMatchCode rs s.1 <;> simp [lastGammaMatchCode, hl, hw]
      · unfold simpleGammaStep
        rw [if_neg hr, if_neg hw, zipWith_fuse]
        congr 1
        funext s c
        cases hl : lastGammaMatchCode rs s.1 with
        | some x => simp [lastGammaMatchCode, hl]
        | none =>
          by_cases hm : r.gamma_min ≤ s.1 ∧ s.1 ≤ r.gamma_max
          · simp [lastGammaMatchCode, hl, hr, hw, hm]
          · simp only [lastGammaMatchCode, hl, Option.getD_none]
            rw [if_neg (by tauto), if_neg (by tauto)]
            rfl

/-- C2: simple-mode asymmetry of `classify_rows_simple` — with the channels
resolved, every sample's final code is that of the last non-`NL`,
non-wildcard-gamma rule whose gamma range contains the sample's gamma
(unconditionally overwriting pass 1), and only when no gamma rule matches is
it the first non-`NL`, non-wildcard-density rule whose density range contains
the sample's density, defaulting to `NL`. -/
theorem classify_rows_simple_asymmetry (df : LogFrame) (rules : List Rule)
    (m : MnemonicMap) (ch : DensityChannel)
    (hg : "gamma" ∈ df.columns) (hd : resolveDensityChannel m df.columns = some ch) :
    (classify_rows_simple df rules m).codes
      = df.rows.map fun r =>
          (lastGammaMatchCode rules r.gamma).getD
            (firstDensityMatchCode rules (densityValue ch r)) := by
  unfold classify_rows_simple
  rw [if_neg (not_not_intro hg), hd]
  simp only
  rw [foldl_simpleDensityStep_char rules _ _ (by simp)]
  rw [List.zipWith_map_right, List.zipWith_same]
  have hmap : (df.rows.map fun r => (r.gamma, densityValue ch r)).map
      (fun s => if "NL" = "NL" then firstDensityMatchCode rules s.2 else "NL")
      = (df.rows.map fun r => (r.gamma, densityValue ch r)).map
        (fun s => firstDensityMatchCode rules s.2) := by
    simp
  rw [hmap, foldl_simpleGammaStep_char rules _ _ (by simp), List.zipWith_map_right,
    List.zipWith_same, List.map_map]
  rfl

/-- Witness for C2: the density pass classifies the sample `AA`, and the later
gamma rule `BB` overwrites it in pass 2 (last gamma match wins). -/
theorem classify_rows_simple_asymmetry_witness :
    (classify_rows_simple exDF2 [ruleA, ruleB, nlRule] exMap).codes
      = exDF2.rows.map fun r =>
          (lastGammaMatchCode [ruleA, ruleB, nlRule] r.gamma).getD
            (firstDensityMatchCode [ruleA, ruleB, nlRule] (densityValue .shortSpace r)) :=
  classify_rows_simple_asymmetry exDF2 [ruleA, ruleB, nlRule] exMap .shortSpace
    (by decide) (by decide)

/-- Unfolding equation of `mergePass` on a nonempty list. -/
theorem mergePass_cons (threshold : ℚ) (u : LithUnit) (rest : List LithUnit) :
    mergePass threshold (u :: rest)
      = (absorb threshold u rest).1 :: mergePass threshold (absorb threshold u rest).2 := by
  rw [mergePass]

/-- Unfolding equation of `mergePass` on the empty list. -/
theorem mergePass_nil (threshold : ℚ) : mergePass threshold [] = [] := by
  rw [mergePass]

/-- Lemma: `absorb` changes only `to_depth` and `thickness` of the current unit:
its lithology code, qualifier and `from_depth` are preserved. -/
theorem absorb_fst_fields (threshold : ℚ) :
    ∀ (l : List LithUnit) (cur : LithUnit),
      (absorb threshold cur l).1.lithology_code = cur.lithology_code ∧
      (absorb threshold cur l).1.lithology_qualifier = cur.lithology_qualifier ∧
      (absorb threshold cur l).1.from_depth = cur.from_depth := by
  intro l
  induction l with
  | nil => intro cur; exact ⟨rfl, rfl, rfl⟩
  | cons v vs ih =>
    intro cur
    by_cases h1 : cur.thickness < threshold
    · by_cases h2 : cur.lithology_code = v.lithology_code ∧
          cur.lithology_qualifier = v.lithology_qualifier
      · unfold absorb
        rw [if_pos h1, if_pos h2]
        exact ih _
      · unfold absorb
        rw [if_pos h1, if_neg h2]
        exact ⟨rfl, rfl, rfl⟩
    · unfold absorb
      rw [if_neg h1]
      exact ⟨rfl, rfl, rfl⟩

/-- The units left unconsumed by `absorb` are a suffix of its input. -/
theorem absorb_snd_suffix (threshold : ℚ) :
    ∀ (l : List LithUnit) (cur : LithUnit), (absorb threshold cur l).2 <:+ l := by
  intro l
  induction l with
  | nil => intro cur; exact List.suffix_refl _
  | cons v vs ih =>
    intro cur
    by_cases h1 : cur.thickness < threshold
    · by_cases h2 : cur.lithology_code = v.lithology_code ∧
          cur.lithology_qualifier = v.lithology_qualifier
      · unfold absorb
        rw [if_pos h1, if_pos h2]
        exact (ih _).trans (List.suffix_cons v vs)
      · unfold absorb
        rw [if_pos h1, if_neg h2]
    · unfold absorb
      rw [if_neg h1]

/-- When `absorb` stops with a unit still ahead, the emitted unit and that
next unit fail the merge condition. -/
theorem absorb_exit (threshold : ℚ) :
    ∀ (l : List LithUnit) (cur c v : LithUnit) (vs : List LithUnit),
      absorb threshold cur l = (c, v :: vs) → MergedOK threshold c v := by
  intro l
  induction l with
  | nil =>
    intro cur c v vs h
    unfold absorb at h
    injection h with h1 h2
    cases h2
  | cons w ws ih =>
    intro cur c v vs h
    by_cases h1 : cur.thickness < threshold
    · by_cases h2 : cur.lithology_code = w.lithology_code ∧
          cur.lithology_qualifier = w.lithology_qualifier
      · unfold absorb at h
        rw [if_pos h1, if_pos h2] at h
        exact ih _ _ _ _ h
      · unfold absorb at h
        rw [if_pos h1, if_neg h2] at h
        injection h with hfst hsnd
        injection hsnd with hv hvs
        subst hfst hv
        exact Or.inr (not_and_or.mp h2)
    · unfold absorb at h
      rw [if_neg h1] at h
      injection h with hfst hsnd
      subst hfst
      exact Or.inl (not_lt.mp h1)

/-- Lemma: `absorb` consumes nothing when the merge condition already fails against
the head of the list. -/
theorem absorb_eq_of_headOK (threshold : ℚ) (cur : LithUnit) :
    ∀ l : List LithUnit, (∀ v ∈ l.head?, MergedOK threshold cur v) →
      absorb threshold cur l = (cur, l) := by
  intro l hok
  cases l with
  | nil => rfl
  | cons v vs =>
    have hv := hok v rfl
    rcases hv with hv | hv
    · unfold absorb
      rw [if_neg (not_lt.mpr hv)]
    · by_cases h1 : cur.thickness < threshold
      · unfold absorb
        rw [if_pos h1, if_neg (not_and_or.mpr hv)]
      · unfold absorb
        rw [if_neg h1]

/-- Adjacent units in the output of the merge pass never satisfy the merge
condition. -/
theorem mergePass_chain (threshold : ℚ) :
    ∀ (n : ℕ) (l : List LithUnit), l.length ≤ n →
      List.Chain' (MergedOK threshold) (mergePass threshold l) := by
  intro n
  induction n with
  | zero =>
    intro l hl
    rw [Nat.le_zero, List.length_eq_zero] at hl
    subst hl
    rw [mergePass_nil]
    exact List.chain'_nil
  | succ n ih =>
    intro l hl
    cases l with
    | nil => rw [mergePass_nil]; exact List.chain'_nil
    | cons u rest =>
      have hlen : (absorb threshold u rest).2.length ≤ n :=
        le_trans (absorb_len threshold rest u) (by simpa using hl)
      rw [mergePass_cons, List.chain'_cons']
      refine ⟨?_, ih _ hlen⟩
      intro y hy
      cases hrem : (absorb threshold u rest).2 with
      | nil => rw [hrem, mergePass_nil] at hy; cases hy
      | cons v vs =>
        rw [hrem, mergePass_cons] at hy
        have hyv : (absorb threshold v vs).1 = y := by
          simpa using hy
        subst hyv
        have habs : absorb threshold u rest = ((absorb threshold u rest).1, v :: vs) := by
          rw [← hrem]
        have hexit := absorb_exit threshold rest u _ v vs habs
        obtain ⟨hcode, hqual, -⟩ := absorb_fst_fields threshold vs v
        rcases hexit with hx | hx | hx
        · exact Or.inl hx
        · exact Or.inr (Or.inl (by rw [hcode]; exact hx))
        · exact Or.inr (Or.inr (by rw [hqual]; exact hx))

/-- The merge pass is the identity on a list whose adjacent pairs all fail
the merge condition. -/
theorem mergePass_of_chain (threshold : ℚ) :
    ∀ (n : ℕ) (l : List LithUnit), l.length ≤ n →
      List.Chain' (MergedOK threshold) l → mergePass threshold l = l := by
  intro n
  induction n with
  | zero =>
    intro l hl _
    rw [Nat.le_zero, List.length_eq_zero] at hl
    subst hl
    exact mergePass_nil threshold
  | succ n ih =>
    intro l hl hch
    cases l with
    | nil => exact mergePass_nil threshold
    | cons u rest =>
      rw [List.chain'_cons'] at hch
      have habs : absorb threshold u rest = (u, rest) :=
        absorb_eq_of_headOK threshold u rest hch.1
      rw [mergePass_cons, habs]
      rw [ih rest (by simpa using hl) hch.2]

/-- Every unit emitted by the merge pass starts at the depth of one of the
input units. -/
theorem mergePass_mem_from (threshold : ℚ) :
    ∀ (n : ℕ) (l : List LithUnit), l.length ≤ n →
      ∀ x ∈ mergePass threshold l, ∃ y ∈ l, x.from_depth = y.from_depth := by
  intro n
  induction n with
  | zero =>
    intro l hl x hx
    rw [Nat.le_zero, List.length_eq_zero] at hl
    subst hl
    rw [mergePass_nil] at hx
    cases hx
  | succ n ih =>
    intro l hl x hx
    cases l with
    | nil => rw [mergePass_nil] at hx; cases hx
    | cons u rest =>
      rw [mergePass_cons] at hx
      rcases List.mem_cons.mp hx with hx | hx
      · refine ⟨u, List.mem_cons_self u rest, ?_⟩
        rw [hx]
        exact (absorb_fst_fields threshold rest u).2.2
      · have hlen : (absorb threshold u rest).2.length ≤ n :=
          le_trans (absorb_len threshold rest u) (by simpa using hl)
        obtain ⟨y, hy, hxy⟩ := ih _ hlen x hx
        exact ⟨y, List.mem_cons_of_mem u
          (List.Sublist.mem hy (absorb_snd_suffix threshold rest u).sublist), hxy⟩

/-- The merge pass preserves sortedness by `from_depth`. -/
theorem mergePass_sorted (threshold : ℚ) :
    ∀ (n : ℕ) (l : List LithUnit), l.length ≤ n →
      List.Sorted unitLe l → List.Sorted unitLe (mergePass threshold l) := by
  intro n
  induction n with
  | zero =>
    intro l hl _
    rw [Nat.le_zero, List.length_eq_zero] at hl
    subst hl
    rw [mergePass_nil]
    exact List.sorted_nil
  | succ n ih =>
    intro l hl hs
    cases l with
    | nil => rw [mergePass_nil]; exact List.sorted_nil
    | cons u rest =>
      rw [List.sorted_cons] at hs
      have hlen : (absorb threshold u rest).2.length ≤ n :=
        le_trans (absorb_len threshold rest u) (by simpa using hl)
      rw [mergePass_cons, List.sorted_cons]
      constructor
      · intro b hb
        obtain ⟨y, hy, hby⟩ := mergePass_mem_from threshold n _ hlen b hb
        have hyrest : y ∈ rest :=
          List.Sublist.mem hy (absorb_snd_suffix threshold rest u).sublist
        show (absorb threshold u rest).1.from_depth ≤ b.from_depth
        rw [(absorb_fst_fields threshold rest u).2.2, hby]
        exact hs.1 y hyrest
      · exact ih _ hlen
          (List.Pairwise.sublist (absorb_snd_suffix threshold rest u).sublist hs.2)

/-- C6 merge convergence: re-running the thin-unit merge on its own output
changes nothing — `merge_thin_units` is idempotent for every unit list and
every threshold. -/
theorem merge_thin_units_idempotent (units : List LithUnit) (threshold : ℚ) :
    merge_thin_units (merge_thin_units units threshold) threshold
      = merge_thin_units units threshold := by
  unfold merge_thin_units
  by_cases h : units.length ≤ 1
  · rw [if_pos h, if_pos h]
  · rw [if_neg h]
    by_cases h2 : (mergePass threshold (units.insertionSort unitLe)).length ≤ 1
    · rw [if_pos h2]
    · rw [if_neg h2]
      have hsort : List.Sorted unitLe (mergePass threshold (units.insertionSort unitLe)) :=
        mergePass_sorted threshold (units.insertionSort unitLe).length _ le_rfl
          (List.sorted_insertionSort unitLe units)
      rw [hsort.insertionSort_eq]
      exact mergePass_of_chain threshold
        (mergePass threshold (units.insertionSort unitLe)).length _ le_rfl
        (mergePass_chain threshold (units.insertionSort unitLe).length _ le_rfl)

end Earthworm
